import Mathlib

/-!
Shallow embedding of the `circadia` crate (sunrise/sunset computation).

Modelling conventions:
* `f64` values are modelled as exact rationals.  The transcendental
  operations (`sin`, `cos`, `tan`, `asin`, `acos`, `atan`, `to_radians`,
  `to_degrees`) have no exact rational meaning, so they are abstracted
  into a record of functions `FloatOps`; every structural theorem below is
  proved for an arbitrary such record, and witnesses instantiate it with a
  concrete computable record.
* `chrono::Date<Utc>` is modelled as an integer day number (days since the
  Unix epoch, proleptic Gregorian calendar) and `chrono::DateTime<Utc>` as
  an integer count of seconds since the epoch; `date()` is floor division
  by 86400, `succ`/`pred` are `+1`/`-1` on days, `and_time`/`and_hms`
  combine a day with a second-of-day.  These are the external date-library
  contracts assumed by the crate.
* The `assert!` in `cycled` (reached through `SunEvents::starting_from`)
  is modelled by an `Option` result: `none` is the panic.
* The Rust iterators (`ForecastedSunEvents::next`, `HistoricSunEvents::next`)
  contain an unbounded `loop`; they are modelled with explicit fuel, `none`
  meaning the loop did not produce a value within the given fuel.
-/

set_option allowUnsafeReducibility true in
attribute [semireducible] Rat.add Rat.mul Rat.sub Rat.inv Rat.ofScientific

set_option maxRecDepth 40000

namespace Circadia

/-- Abstract interface for the `f64` transcendental functions used by
`algorithm.rs`.  Field arithmetic is modelled exactly on `ℚ`. -/
structure FloatOps where
  sin : ℚ → ℚ
  cos : ℚ → ℚ
  tan : ℚ → ℚ
  asin : ℚ → ℚ
  acos : ℚ → ℚ
  atan : ℚ → ℚ
  toRadians : ℚ → ℚ
  toDegrees : ℚ → ℚ

/-- Embedding of `event.rs`: `enum Zenith`. -/
inductive Zenith
  | Golden
  | Official
  | Civil
  | Nautical
  | Astronomical
deriving DecidableEq, Repr, Fintype

/-- Embedding of `Zenith::angle`. -/
def Zenith.angle : Zenith → ℚ
  | Zenith.Golden => 80
  | Zenith.Official => 90
  | Zenith.Civil => 96
  | Zenith.Nautical => 102
  | Zenith.Astronomical => 108

/-- Declaration index of a `Zenith` constructor; the derived Rust `Ord`
on `Zenith` compares declaration order. -/
def Zenith.idx : Zenith → ℕ
  | Zenith.Golden => 0
  | Zenith.Official => 1
  | Zenith.Civil => 2
  | Zenith.Nautical => 3
  | Zenith.Astronomical => 4

/-- Embedding of the derived `Ord for Zenith` (declaration order). -/
def Zenith.cmp (a b : Zenith) : Ordering := compare a.idx b.idx

/-- Embedding of `event.rs`: `enum Event`. -/
inductive Event
  | Sunrise
  | Sunset
deriving DecidableEq, Repr, Fintype

/-- Declaration index of an `Event` constructor. -/
def Event.idx : Event → ℕ
  | Event.Sunrise => 0
  | Event.Sunset => 1

/-- Embedding of the derived `Ord for Event` (declaration order,
`Sunrise < Sunset`). -/
def Event.cmp (a b : Event) : Ordering := compare a.idx b.idx

/-- Embedding of `Event::hour`. -/
def Event.hour : Event → ℚ
  | Event.Sunrise => 6
  | Event.Sunset => 18

/-- Embedding of `event.rs`: `struct SunEvent`. -/
structure SunEvent where
  zenith : Zenith
  event : Event
deriving DecidableEq, Repr, Fintype

/-- Embedding of `SunEvent::DAWN`. -/
def SunEvent.DAWN : SunEvent := ⟨Zenith.Civil, Event.Sunrise⟩

/-- Embedding of `SunEvent::DUSK`. -/
def SunEvent.DUSK : SunEvent := ⟨Zenith.Civil, Event.Sunset⟩

/-- Embedding of `SunEvent::SUNRISE`. -/
def SunEvent.SUNRISE : SunEvent := ⟨Zenith.Official, Event.Sunrise⟩

/-- Embedding of `SunEvent::SUNSET`. -/
def SunEvent.SUNSET : SunEvent := ⟨Zenith.Official, Event.Sunset⟩

/-- Embedding of `SunEvent::is_sunrise`. -/
def SunEvent.is_sunrise (s : SunEvent) : Bool :=
  match s.event with
  | Event.Sunrise => true
  | Event.Sunset => false

/-- Embedding of `SunEvent::is_sunset` (`!self.is_sunrise()`). -/
def SunEvent.is_sunset (s : SunEvent) : Bool := !s.is_sunrise

/-- Embedding of `impl Ord for SunEvent` (`event.rs` lines 106-115);
`Ordering::reverse` is `Ordering.swap`. -/
def SunEvent.cmp (a b : SunEvent) : Ordering :=
  match a.event, b.event with
  | Event.Sunrise, Event.Sunrise => (Zenith.cmp a.zenith b.zenith).swap
  | Event.Sunset, Event.Sunset => Zenith.cmp a.zenith b.zenith
  | x, y => Event.cmp x y

/-- The non-strict order induced by `SunEvent.cmp`; `Vec::sort` sorts
ascending with respect to this relation. -/
def SunEvent.le (a b : SunEvent) : Prop := SunEvent.cmp a b ≠ Ordering.gt

instance : DecidableRel SunEvent.le := fun a b =>
  inferInstanceAs (Decidable (SunEvent.cmp a b ≠ Ordering.gt))

/-- Embedding of `pos.rs`: `struct GlobalPosition`. -/
structure GlobalPosition where
  latitude : ℚ
  longitude : ℚ
  lng_hour : ℚ
deriving DecidableEq, Repr

/-- Embedding of `GlobalPosition::at` (`at` is a Lean keyword, hence the
primed name). -/
def GlobalPosition.at' (lat lng : ℚ) : GlobalPosition := ⟨lat, lng, lng / 15⟩

/-- Embedding of `GlobalPosition::lat`. -/
def GlobalPosition.lat (p : GlobalPosition) : ℚ := p.latitude

/-- Embedding of `GlobalPosition::lng`. -/
def GlobalPosition.lng (p : GlobalPosition) : ℚ := p.longitude

/-- Days-since-epoch of a proleptic-Gregorian civil date (Hinnant's
`days_from_civil`); models the calendar arithmetic `chrono` supplies. -/
def daysFromCivil (y m d : ℤ) : ℤ :=
  let y2 := if m ≤ 2 then y - 1 else y
  let era := Int.fdiv y2 400
  let yoe := y2 - era * 400
  let doy := Int.fdiv (153 * (if 2 < m then m - 3 else m + 9) + 2) 5 + d - 1
  let doe := yoe * 365 + Int.fdiv yoe 4 - Int.fdiv yoe 100 + doy
  era * 146097 + doe - 719468

/-- Calendar year containing an epoch day number (Hinnant's
`civil_from_days`, year component). -/
def yearOf (day : ℤ) : ℤ :=
  let z := day + 719468
  let era := Int.fdiv z 146097
  let doe := z - era * 146097
  let yoe := Int.fdiv (doe - Int.fdiv doe 1460 + Int.fdiv doe 36524 - Int.fdiv doe 146096) 365
  let y := yoe + era * 400
  let doy := doe - (365 * yoe + Int.fdiv yoe 4 - Int.fdiv yoe 100)
  let mp := Int.fdiv (5 * doy + 2) 153
  let m := if mp < 10 then mp + 3 else mp - 9
  if m ≤ 2 then y + 1 else y

/-- Embedding of `chrono`'s `Date::ordinal`: one-based day of the year of
an epoch day number. -/
def ordinal (day : ℤ) : ℤ := day - daysFromCivil (yearOf day) 1 1 + 1

/-- Embedding of `chrono`'s `DateTime::date`: the day a timestamp
(seconds since epoch) falls on, flooring. -/
def dateOf (t : ℤ) : ℤ := t / 86400

/-- Truncation of a rational toward zero (the rounding used by the `f64`
`%` operator's quotient). -/
def ratTrunc (q : ℚ) : ℤ := if q < 0 then -Rat.floor (-q) else Rat.floor q

/-- Exact model of the `f64` `%` operator: `lhs - rhs * trunc(lhs/rhs)`. -/
def fmod (lhs rhs : ℚ) : ℚ := lhs - rhs * (ratTrunc (lhs / rhs) : ℚ)

/-- Embedding of `algorithm.rs`: `rem_euclid`. -/
def rem_euclid (lhs rhs : ℚ) : ℚ :=
  let r := fmod lhs rhs
  if r < 0 then r + |rhs| else r

/-- Embedding of `algorithm.rs`: `approximate_time`. -/
def approximate_time (D : ℚ) (event : SunEvent) (pos : GlobalPosition) : ℚ :=
  D + ((event.event.hour - pos.lng_hour) / 24)

/-- Embedding of `algorithm.rs`: `mean_anomaly`. -/
def mean_anomaly (t : ℚ) : ℚ := 0.9856 * t - 3.289

/-- Embedding of `algorithm.rs`: `true_longitude`. -/
def true_longitude (F : FloatOps) (M : ℚ) : ℚ :=
  let L := M + 1.916 * F.sin (F.toRadians M) + 0.020 * F.sin (F.toRadians (2 * M)) + 282.634
  rem_euclid L 360

/-- Embedding of `algorithm.rs`: `right_ascension`. -/
def right_ascension (F : FloatOps) (L : ℚ) : ℚ :=
  let RA0 := F.toDegrees (F.atan (0.91764 * F.tan (F.toRadians L)))
  let RA := rem_euclid RA0 360
  let LQuadrant := (Rat.floor (L / 90) : ℚ) * 90
  let RAQuadrant := (Rat.floor (RA / 90) : ℚ) * 90
  (RA + (LQuadrant - RAQuadrant)) / 15

/-- The hour-angle cosine `cosH` computed inside `local_hour_angle`
(`algorithm.rs` lines 71-75). -/
def hour_angle_cos (F : FloatOps) (L : ℚ) (pos : GlobalPosition) (event : SunEvent) : ℚ :=
  let sinDec := 0.39782 * F.sin (F.toRadians L)
  let cosDec := F.cos (F.asin sinDec)
  let z := F.toRadians event.zenith.angle
  (F.cos z - sinDec * F.sin (F.toRadians pos.lat)) / (cosDec * F.cos (F.toRadians pos.lat))

/-- Embedding of `algorithm.rs`: `local_hour_angle`. -/
def local_hour_angle (F : FloatOps) (L : ℚ) (pos : GlobalPosition) (event : SunEvent) :
    Option ℚ :=
  let cosH := hour_angle_cos F L pos event
  if 1 < cosH ∧ event.is_sunrise = true then none
  else if cosH < -1 ∧ event.is_sunset = true then none
  else
    let H := if event.is_sunrise = true then 360 - F.toDegrees (F.acos cosH)
      else F.toDegrees (F.acos cosH)
    some (H / 15)

/-- Embedding of `algorithm.rs`: `local_mean_time`. -/
def local_mean_time (H RA t : ℚ) : ℚ := H + RA - 0.06571 * t - 6.622

/-- Embedding of `algorithm.rs`: `time_of_event`.  The result is the
timestamp (seconds since epoch) of the event, `none` when the event does
not occur.  The cast `(UT * 3600) as u32` is Rust's saturating truncating
float-to-integer cast, modelled by `Int.toNat ∘ Rat.floor` (`UT` is
non-negative here, where truncation and floor agree). -/
def time_of_event (F : FloatOps) (date : ℤ) (pos : GlobalPosition) (event : SunEvent) :
    Option ℤ :=
  let D : ℚ := (ordinal date : ℚ)
  let t := approximate_time D event pos
  let M := mean_anomaly t
  let L := true_longitude F M
  let RA := right_ascension F L
  match local_hour_angle F L pos event with
  | none => none
  | some H =>
    let T := local_mean_time H RA t
    let UT := rem_euclid (T - pos.lng_hour) 24
    let secs : ℤ := ((Rat.floor (UT * 3600)).toNat : ℤ)
    let date2 :=
      if 0 < pos.lng_hour ∧ 12 < UT ∧ event.is_sunrise = true then date - 1
      else if pos.lng_hour < 0 ∧ UT < 12 ∧ event.is_sunset = true then date + 1
      else date
    some (date2 * 86400 + secs)

/-- The value `UT` computed by `time_of_event` (universal time of the
event in hours), exposed for specification purposes; meaningful whenever
`local_hour_angle` succeeds. -/
def universal_time (F : FloatOps) (date : ℤ) (pos : GlobalPosition) (event : SunEvent) : ℚ :=
  let D : ℚ := (ordinal date : ℚ)
  let t := approximate_time D event pos
  let M := mean_anomaly t
  let L := true_longitude F M
  let RA := right_ascension F L
  match local_hour_angle F L pos event with
  | none => 0
  | some H => rem_euclid (local_mean_time H RA t - pos.lng_hour) 24

/-- The hour-angle cosine of `time_of_event`'s run on the given inputs,
exposed for specification purposes. -/
def cosH_of (F : FloatOps) (date : ℤ) (pos : GlobalPosition) (event : SunEvent) : ℚ :=
  hour_angle_cos F
    (true_longitude F (mean_anomaly (approximate_time ((ordinal date : ℚ)) event pos)))
    pos event

/-- Embedding of `iter.rs`: `enum CycleState`. -/
inductive CycleState
  | next (e : SunEvent)
  | restarting
deriving DecidableEq, Repr

/-- Model of `Cycle<VecIter<CycleState>>`: the underlying items together
with the number of elements consumed so far. -/
structure EventCycle where
  items : List CycleState
  idx : ℕ
deriving DecidableEq, Repr

/-- One `next()` call on the cycling iterator: yields
`items[idx mod length]` and advances; `none` models the `unwrap` panic on
an empty underlying collection. -/
def EventCycle.step (c : EventCycle) : Option (CycleState × EventCycle) :=
  match c.items.get? (c.idx % c.items.length) with
  | some x => some (x, ⟨c.items, c.idx + 1⟩)
  | none => none

/-- The item list built by `cycled`: the whitelist sorted by `SunEvent`
order, deduplicated (`Vec::dedup` drops adjacent duplicates), wrapped in
`CycleState.next`, followed by the `Restarting` marker. -/
def cycledItems (events : List SunEvent) : List CycleState :=
  (((events.insertionSort SunEvent.le).destutter Ne).map CycleState.next)
    ++ [CycleState.restarting]

/-- Embedding of `iter.rs`: `cycled`.  The `assert!(!events.is_empty())`
panic is modelled as `none`. -/
def cycled (events : List SunEvent) : Option EventCycle :=
  if events.isEmpty then none else some ⟨cycledItems events, 0⟩

/-- Embedding of `iter.rs`: `struct SunEvents`. -/
structure SunEvents where
  pos : GlobalPosition
  current_time : ℤ
  event_whitelist_iter : EventCycle
deriving DecidableEq, Repr

/-- Embedding of `SunEvents::starting_from`; `none` models the panic on an
empty whitelist. -/
def starting_from (start_date : ℤ) (position : GlobalPosition)
    (event_whitelist : List SunEvent) : Option SunEvents :=
  (cycled event_whitelist).map fun c =>
    { pos := position, current_time := start_date, event_whitelist_iter := c }

/-- Embedding of `ForecastedSunEvents::next` (`iter.rs` lines 70-84) with
explicit fuel for the `loop`; `none` means no value was produced within
`fuel` loop iterations (or the cycle iterator's `unwrap` panicked). -/
def forecastNext (F : FloatOps) : ℕ → SunEvents → Option ((SunEvent × ℤ) × SunEvents)
  | 0, _ => none
  | fuel + 1, s =>
    match s.event_whitelist_iter.step with
    | none => none
    | some (CycleState.next event, c) =>
      match time_of_event F (dateOf s.current_time) s.pos event with
      | some event_time =>
        if s.current_time < event_time then
          some ((event, event_time),
            { pos := s.pos, current_time := event_time, event_whitelist_iter := c })
        else
          forecastNext F fuel
            { pos := s.pos, current_time := s.current_time, event_whitelist_iter := c }
      | none =>
        forecastNext F fuel
          { pos := s.pos, current_time := s.current_time, event_whitelist_iter := c }
    | some (CycleState.restarting, c) =>
      forecastNext F fuel
        { pos := s.pos, current_time := (dateOf s.current_time + 1) * 86400,
          event_whitelist_iter := c }

/-- Embedding of `HistoricSunEvents::next` (`iter.rs` lines 96-110) with
explicit fuel; the day-boundary arm is
`yesterday.and_hms(23, 59, 59) = (date - 1) * 86400 + 86399`. -/
def historyNext (F : FloatOps) : ℕ → SunEvents → Option ((SunEvent × ℤ) × SunEvents)
  | 0, _ => none
  | fuel + 1, s =>
    match s.event_whitelist_iter.step with
    | none => none
    | some (CycleState.next event, c) =>
      match time_of_event F (dateOf s.current_time) s.pos event with
      | some event_time =>
        if event_time < s.current_time then
          some ((event, event_time),
            { pos := s.pos, current_time := event_time, event_whitelist_iter := c })
        else
          historyNext F fuel
            { pos := s.pos, current_time := s.current_time, event_whitelist_iter := c }
      | none =>
        historyNext F fuel
          { pos := s.pos, current_time := s.current_time, event_whitelist_iter := c }
    | some (CycleState.restarting, c) =>
      historyNext F fuel
        { pos := s.pos, current_time := (dateOf s.current_time - 1) * 86400 + 86399,
          event_whitelist_iter := c }

/-- A concrete `FloatOps` record (all transcendental functions constantly
zero) used to evaluate the embedding on explicit inputs. -/
def zeroOps : FloatOps :=
  ⟨fun _ => 0, fun _ => 0, fun _ => 0, fun _ => 0, fun _ => 0, fun _ => 0,
    fun _ => 0, fun _ => 0⟩

/-- A position on the equator at the prime meridian (`lng_hour = 0`). -/
def posZero : GlobalPosition := GlobalPosition.at' 0 0

/-- A position with small negative longitude-hour, where the sunset
day-correction of `time_of_event` fires. -/
def posSkip : GlobalPosition := GlobalPosition.at' 0 (-6)

/-- A position at which `UT * 3600` has fractional part above one half. -/
def posFrac : GlobalPosition := GlobalPosition.at' 0 7

/- ### Arithmetic helper lemmas -/

theorem ratFloor_eq_intFloor (q : ℚ) : Rat.floor q = ⌊q⌋ := by
  rw [Rat.floor_def', Rat.floor_def]

theorem ratTrunc_le_of_nonneg {q : ℚ} (h : 0 ≤ q) : (ratTrunc q : ℚ) ≤ q := by
  unfold ratTrunc
  rw [if_neg (not_lt.2 h), ratFloor_eq_intFloor]
  exact Int.floor_le q

theorem lt_ratTrunc_add_one_of_nonneg {q : ℚ} (h : 0 ≤ q) : q < (ratTrunc q : ℚ) + 1 := by
  unfold ratTrunc
  rw [if_neg (not_lt.2 h), ratFloor_eq_intFloor]
  exact_mod_cast Int.lt_floor_add_one q

theorem le_ratTrunc_of_neg {q : ℚ} (h : q < 0) : q ≤ (ratTrunc q : ℚ) := by
  unfold ratTrunc
  rw [if_pos h, ratFloor_eq_intFloor]
  push_cast
  have := Int.floor_le (-q)
  linarith

theorem ratTrunc_lt_add_one_of_neg {q : ℚ} (h : q < 0) : (ratTrunc q : ℚ) < q + 1 := by
  unfold ratTrunc
  rw [if_pos h, ratFloor_eq_intFloor]
  push_cast
  have := Int.lt_floor_add_one (-q)
  linarith

theorem fmod_bounds {lhs rhs : ℚ} (h : 0 < rhs) :
    -rhs < fmod lhs rhs ∧ fmod lhs rhs < rhs := by
  unfold fmod
  have hne : rhs ≠ 0 := ne_of_gt h
  have hx : lhs = rhs * (lhs / rhs) := by field_simp
  rcases le_or_lt 0 (lhs / rhs) with hpos | hneg
  · have h1 := ratTrunc_le_of_nonneg hpos
    have h2 := lt_ratTrunc_add_one_of_nonneg hpos
    constructor <;> nlinarith
  · have h1 := le_ratTrunc_of_neg hneg
    have h2 := ratTrunc_lt_add_one_of_neg hneg
    constructor <;> nlinarith

theorem rem_euclid_nonneg {lhs rhs : ℚ} (h : 0 < rhs) : 0 ≤ rem_euclid lhs rhs := by
  unfold rem_euclid
  have hb := @fmod_bounds lhs rhs h
  rw [abs_of_pos h]
  dsimp only
  split_ifs with hr
  · linarith [hb.1]
  · linarith

theorem rem_euclid_lt {lhs rhs : ℚ} (h : 0 < rhs) : rem_euclid lhs rhs < rhs := by
  unfold rem_euclid
  have hb := @fmod_bounds lhs rhs h
  rw [abs_of_pos h]
  dsimp only
  split_ifs with hr
  · linarith
  · exact hb.2

theorem rem_euclid_congruent {lhs rhs : ℚ} (h : 0 < rhs) :
    ∃ k : ℤ, rem_euclid lhs rhs = lhs - k * rhs := by
  unfold rem_euclid fmod
  rw [abs_of_pos h]
  dsimp only
  split_ifs with hr
  · exact ⟨ratTrunc (lhs / rhs) - 1, by push_cast; ring⟩
  · exact ⟨ratTrunc (lhs / rhs), by ring⟩

theorem dateOf_mul_le (c : ℤ) : dateOf c * 86400 ≤ c := by
  unfold dateOf; omega

theorem lt_dateOf_add_one_mul (c : ℤ) : c < (dateOf c + 1) * 86400 := by
  unfold dateOf; omega

theorem dateOf_day_secs {d s : ℤ} (h0 : 0 ≤ s) (h1 : s < 86400) :
    dateOf (d * 86400 + s) = d := by
  unfold dateOf; omega

theorem dateOf_mul (d : ℤ) : dateOf (d * 86400) = d := by
  unfold dateOf; omega

/- ### Algorithm-level helper lemmas -/

theorem universal_time_nonneg (F : FloatOps) (date : ℤ) (pos : GlobalPosition)
    (event : SunEvent) : 0 ≤ universal_time F date pos event := by
  unfold universal_time
  dsimp only
  cases hlha : local_hour_angle F
      (true_longitude F (mean_anomaly (approximate_time ((ordinal date : ℚ)) event pos)))
      pos event with
  | none => exact le_refl 0
  | some H => exact rem_euclid_nonneg (by norm_num)

theorem universal_time_lt (F : FloatOps) (date : ℤ) (pos : GlobalPosition)
    (event : SunEvent) : universal_time F date pos event < 24 := by
  unfold universal_time
  dsimp only
  cases hlha : local_hour_angle F
      (true_longitude F (mean_anomaly (approximate_time ((ordinal date : ℚ)) event pos)))
      pos event with
  | none => norm_num
  | some H => exact rem_euclid_lt (by norm_num)

theorem time_of_event_some_spec {F : FloatOps} {date : ℤ} {pos : GlobalPosition}
    {event : SunEvent} {ts : ℤ} (h : time_of_event F date pos event = some ts) :
    ts = (if 0 < pos.lng_hour ∧ 12 < universal_time F date pos event ∧
            event.is_sunrise = true then date - 1
          else if pos.lng_hour < 0 ∧ universal_time F date pos event < 12 ∧
            event.is_sunset = true then date + 1
          else date) * 86400
        + ((Rat.floor (universal_time F date pos event * 3600)).toNat : ℤ) := by
  unfold time_of_event at h
  unfold universal_time
  dsimp only at h ⊢
  cases hlha : local_hour_angle F
      (true_longitude F (mean_anomaly (approximate_time ((ordinal date : ℚ)) event pos)))
      pos event with
  | none => rw [hlha] at h; simp at h
  | some H =>
    rw [hlha] at h
    dsimp only at h ⊢
    exact (Option.some.inj h).symm

theorem secs_nonneg (F : FloatOps) (date : ℤ) (pos : GlobalPosition) (event : SunEvent) :
    (0 : ℤ) ≤ ((Rat.floor (universal_time F date pos event * 3600)).toNat : ℤ) := by
  exact_mod_cast Int.ofNat_nonneg _

theorem secs_lt (F : FloatOps) (date : ℤ) (pos : GlobalPosition) (event : SunEvent) :
    ((Rat.floor (universal_time F date pos event * 3600)).toNat : ℤ) < 86400 := by
  have hUT := universal_time_lt F date pos event
  have hmul : universal_time F date pos event * 3600 < 86400 := by nlinarith
  rw [ratFloor_eq_intFloor]
  have hfl : ⌊universal_time F date pos event * 3600⌋ < (86400 : ℤ) :=
    Int.floor_lt.2 (by exact_mod_cast hmul)
  omega

theorem time_of_event_dateOf {F : FloatOps} {date : ℤ} {pos : GlobalPosition}
    {event : SunEvent} {ts : ℤ} (h : time_of_event F date pos event = some ts) :
    dateOf ts = (if 0 < pos.lng_hour ∧ 12 < universal_time F date pos event ∧
            event.is_sunrise = true then date - 1
          else if pos.lng_hour < 0 ∧ universal_time F date pos event < 12 ∧
            event.is_sunset = true then date + 1
          else date) := by
  rw [time_of_event_some_spec h]
  exact dateOf_day_secs (secs_nonneg F date pos event) (secs_lt F date pos event)

/- ### Iterator helper lemmas -/

theorem EventCycle.step_spec {c : EventCycle} {x : CycleState} {c' : EventCycle}
    (h : c.step = some (x, c')) :
    c'.items = c.items ∧ c'.idx = c.idx + 1 ∧ x ∈ c.items := by
  unfold EventCycle.step at h
  cases hg : c.items.get? (c.idx % c.items.length) with
  | none => rw [hg] at h; simp at h
  | some y =>
    rw [hg] at h
    obtain ⟨h1, h2⟩ := Prod.mk.inj (Option.some.inj h)
    subst h1
    exact ⟨(congrArg EventCycle.items h2).symm, (congrArg EventCycle.idx h2).symm,
      List.get?_mem hg⟩

theorem forecastNext_spec (F : FloatOps) :
    ∀ (n : ℕ) (s s' : SunEvents) (e : SunEvent) (t : ℤ),
      forecastNext F n s = some ((e, t), s') →
      s.current_time < t ∧ s'.current_time = t ∧ s'.pos = s.pos ∧
        s'.event_whitelist_iter.items = s.event_whitelist_iter.items ∧
        CycleState.next e ∈ s.event_whitelist_iter.items := by
  intro n
  induction n with
  | zero => intro s s' e t h; simp [forecastNext] at h
  | succ n ih =>
    intro s s' e t h
    rw [forecastNext] at h
    cases hstep : s.event_whitelist_iter.step with
    | none => rw [hstep] at h; simp at h
    | some p =>
      obtain ⟨cs, c⟩ := p
      obtain ⟨hitems, hidx, hmem⟩ := EventCycle.step_spec hstep
      rw [hstep] at h
      cases cs with
      | next ev =>
        dsimp only at h
        cases htoe : time_of_event F (dateOf s.current_time) s.pos ev with
        | none =>
          rw [htoe] at h
          dsimp only at h
          obtain ⟨h1, h2, h3, h4, h5⟩ := ih _ _ _ _ h
          exact ⟨h1, h2, h3, h4.trans hitems, hitems ▸ h5⟩
        | some et =>
          rw [htoe] at h
          dsimp only at h
          split_ifs at h with hlt
          · obtain ⟨hp, hs⟩ := Prod.mk.inj (Option.some.inj h)
            obtain ⟨he, ht⟩ := Prod.mk.inj hp
            subst hs
            refine ⟨ht ▸ hlt, ht, rfl, hitems, ?_⟩
            exact he ▸ hmem
          · obtain ⟨h1, h2, h3, h4, h5⟩ := ih _ _ _ _ h
            exact ⟨h1, h2, h3, h4.trans hitems, hitems ▸ h5⟩
      | restarting =>
        dsimp only at h
        obtain ⟨h1, h2, h3, h4, h5⟩ := ih _ _ _ _ h
        have hmid := lt_dateOf_add_one_mul s.current_time
        exact ⟨lt_trans hmid h1, h2, h3, h4.trans hitems, hitems ▸ h5⟩

theorem historyNext_spec (F : FloatOps) :
    ∀ (n : ℕ) (s s' : SunEvents) (e : SunEvent) (t : ℤ),
      historyNext F n s = some ((e, t), s') →
      t < s.current_time ∧ s'.current_time = t ∧ s'.pos = s.pos ∧
        s'.event_whitelist_iter.items = s.event_whitelist_iter.items ∧
        CycleState.next e ∈ s.event_whitelist_iter.items := by
  intro n
  induction n with
  | zero => intro s s' e t h; simp [historyNext] at h
  | succ n ih =>
    intro s s' e t h
    rw [historyNext] at h
    cases hstep : s.event_whitelist_iter.step with
    | none => rw [hstep] at h; simp at h
    | some p =>
      obtain ⟨cs, c⟩ := p
      obtain ⟨hitems, hidx, hmem⟩ := EventCycle.step_spec hstep
      rw [hstep] at h
      cases cs with
      | next ev =>
        dsimp only at h
        cases htoe : time_of_event F (dateOf s.current_time) s.pos ev with
        | none =>
          rw [htoe] at h
          dsimp only at h
          obtain ⟨h1, h2, h3, h4, h5⟩ := ih _ _ _ _ h
          exact ⟨h1, h2, h3, h4.trans hitems, hitems ▸ h5⟩
        | some et =>
          rw [htoe] at h
          dsimp only at h
          split_ifs at h with hlt
          · obtain ⟨hp, hs⟩ := Prod.mk.inj (Option.some.inj h)
            obtain ⟨he, ht⟩ := Prod.mk.inj hp
            subst hs
            refine ⟨ht ▸ hlt, ht, rfl, hitems, ?_⟩
            exact he ▸ hmem
          · obtain ⟨h1, h2, h3, h4, h5⟩ := ih _ _ _ _ h
            exact ⟨h1, h2, h3, h4.trans hitems, hitems ▸ h5⟩
      | restarting =>
        dsimp only at h
        obtain ⟨h1, h2, h3, h4, h5⟩ := ih _ _ _ _ h
        have hmid : (dateOf s.current_time - 1) * 86400 + 86399 < s.current_time := by
          have := dateOf_mul_le s.current_time
          omega
        exact ⟨lt_trans h1 hmid, h2, h3, h4.trans hitems, hitems ▸ h5⟩

theorem mem_of_next_mem_cycledItems {e : SunEvent} {wl : List SunEvent}
    (h : CycleState.next e ∈ cycledItems wl) : e ∈ wl := by
  unfold cycledItems at h
  rcases List.mem_append.1 h with h | h
  · obtain ⟨a, ha, hae⟩ := List.mem_map.1 h
    cases hae
    exact (List.perm_insertionSort SunEvent.le wl).subset
      ((List.destutter_sublist Ne (wl.insertionSort SunEvent.le)).subset ha)
  · simp at h

/- ### Claim theorems -/

/-- **C1**: `time_of_event` returns `none` exactly when the hour-angle
cosine `cosH` exceeds `1` and the event kind is Sunrise (polar night), or
`cosH` is below `-1` and the event kind is Sunset (polar day); in every
other case it returns a timestamp. -/
theorem time_of_event_none_iff (F : FloatOps) (date : ℤ) (pos : GlobalPosition)
    (event : SunEvent) :
    time_of_event F date pos event = none ↔
      (1 < cosH_of F date pos event ∧ event.is_sunrise = true) ∨
      (cosH_of F date pos event < -1 ∧ event.is_sunset = true) := by
  unfold time_of_event cosH_of local_hour_angle
  dsimp only
  split_ifs with h1 h2
  · simp [h1]
  · simp [h1, h2]
  · simp [h1, h2]

/-- **C2**: the chronological total order on event descriptors: between
two Sunrise descriptors the one with the larger zenith angle is smaller,
between two Sunset descriptors zenith ascending, every Sunrise descriptor
is below every Sunset descriptor, the comparator is a total order
(antisymmetric, converse-swap, transitive), and sorting
`[DUSK, DAWN, SUNRISE, SUNSET]` yields `[DAWN, SUNRISE, SUNSET, DUSK]`. -/
theorem sun_event_order_spec :
    (∀ a b : SunEvent, a.event = Event.Sunrise → b.event = Event.Sunrise →
        b.zenith.angle < a.zenith.angle → SunEvent.cmp a b = Ordering.lt) ∧
    (∀ a b : SunEvent, a.event = Event.Sunset → b.event = Event.Sunset →
        a.zenith.angle < b.zenith.angle → SunEvent.cmp a b = Ordering.lt) ∧
    (∀ a b : SunEvent, a.event = Event.Sunrise → b.event = Event.Sunset →
        SunEvent.cmp a b = Ordering.lt) ∧
    (∀ a b : SunEvent, SunEvent.cmp a b = Ordering.eq ↔ a = b) ∧
    (∀ a b : SunEvent, SunEvent.cmp b a = (SunEvent.cmp a b).swap) ∧
    (∀ a b c : SunEvent, SunEvent.le a b → SunEvent.le b c → SunEvent.le a c) ∧
    List.insertionSort SunEvent.le
        [SunEvent.DUSK, SunEvent.DAWN, SunEvent.SUNRISE, SunEvent.SUNSET] =
      [SunEvent.DAWN, SunEvent.SUNRISE, SunEvent.SUNSET, SunEvent.DUSK] := by
  refine ⟨by decide, by decide, by decide, by decide, by decide, by decide, by decide⟩

/-- **C5**: `starting_from` fails (the modelled panic, `none`) exactly
when the supplied event whitelist is empty; for every non-empty whitelist
construction succeeds. -/
theorem starting_from_none_iff (start_date : ℤ) (position : GlobalPosition)
    (wl : List SunEvent) :
    starting_from start_date position wl = none ↔ wl = [] := by
  unfold starting_from cycled
  cases wl <;> simp

/-- **C8**: `rem_euclid` is a positive-remainder modulo: for every `lhs`
and every modulus `rhs > 0` the result is congruent to `lhs` modulo `rhs`
and lies in `[0, rhs)`; in particular it is never negative. -/
theorem rem_euclid_spec (lhs rhs : ℚ) (h : 0 < rhs) :
    (∃ k : ℤ, rem_euclid lhs rhs = lhs - k * rhs) ∧
      0 ≤ rem_euclid lhs rhs ∧ rem_euclid lhs rhs < rhs :=
  ⟨rem_euclid_congruent h, rem_euclid_nonneg h, rem_euclid_lt h⟩

/-- Witness for **C8** at `lhs = -7`, `rhs = 3`. -/
theorem rem_euclid_spec_witness :
    (0 : ℚ) < 3 ∧ ((∃ k : ℤ, rem_euclid (-7) 3 = -7 - k * 3) ∧
      0 ≤ rem_euclid (-7) 3 ∧ rem_euclid (-7) 3 < 3) :=
  ⟨by norm_num, rem_euclid_spec (-7) 3 (by norm_num)⟩

/-- Forecast iterator state at the prime meridian, midnight of epoch day 0,
whitelist `[SUNRISE]`, cycle untouched. -/
def sWF0 : SunEvents := ⟨posZero, 0, ⟨cycledItems [SunEvent.SUNRISE], 0⟩⟩

/-- The state after one yield of `forecastNext` from `sWF0`. -/
def sWF1 : SunEvents := ⟨posZero, 40665, ⟨cycledItems [SunEvent.SUNRISE], 1⟩⟩

/-- The state after two yields of `forecastNext` from `sWF0`. -/
def sWF2 : SunEvents := ⟨posZero, 126828, ⟨cycledItems [SunEvent.SUNRISE], 3⟩⟩

/-- History iterator state at the prime meridian, noon of epoch day 10,
whitelist `[SUNRISE]`, cycle untouched. -/
def sWH0 : SunEvents := ⟨posZero, 907200, ⟨cycledItems [SunEvent.SUNRISE], 0⟩⟩

/-- The state after one yield of `historyNext` from `sWH0`. -/
def sWH1 : SunEvents := ⟨posZero, 902299, ⟨cycledItems [SunEvent.SUNRISE], 1⟩⟩

/-- The state after two yields of `historyNext` from `sWH0`. -/
def sWH2 : SunEvents := ⟨posZero, 816136, ⟨cycledItems [SunEvent.SUNRISE], 3⟩⟩

/-- **C3**: consecutive timestamps yielded by successive `next()` calls
are strictly increasing on the forecast iterator and strictly decreasing
on the history iterator.  Stated for arbitrary iterator states, which in
particular covers every generator built by `starting_from` with a
non-empty whitelist and the states reached from it. -/
theorem consecutive_yields_monotonic (F : FloatOps) (n m n' m' : ℕ)
    (s s₁ s₂ r r₁ r₂ : SunEvents) (e₁ e₂ f₁ f₂ : SunEvent) (t₁ t₂ u₁ u₂ : ℤ)
    (hf1 : forecastNext F n s = some ((e₁, t₁), s₁))
    (hf2 : forecastNext F m s₁ = some ((e₂, t₂), s₂))
    (hh1 : historyNext F n' r = some ((f₁, u₁), r₁))
    (hh2 : historyNext F m' r₁ = some ((f₂, u₂), r₂)) :
    t₁ < t₂ ∧ u₂ < u₁ := by
  obtain ⟨-, hcur1, -, -, -⟩ := forecastNext_spec F n s s₁ e₁ t₁ hf1
  obtain ⟨hlt2, -, -, -, -⟩ := forecastNext_spec F m s₁ s₂ e₂ t₂ hf2
  obtain ⟨-, hcur1h, -, -, -⟩ := historyNext_spec F n' r r₁ f₁ u₁ hh1
  obtain ⟨hlt2h, -, -, -, -⟩ := historyNext_spec F m' r₁ r₂ f₂ u₂ hh2
  rw [hcur1] at hlt2
  rw [hcur1h] at hlt2h
  exact ⟨hlt2, hlt2h⟩

/-- Witness for **C3**: two consecutive sunrise yields forward from epoch
day 0 and two consecutive sunrise yields backward from epoch day 10. -/
theorem consecutive_yields_monotonic_witness : (40665 : ℤ) < 126828 ∧ (816136 : ℤ) < 902299 :=
  consecutive_yields_monotonic zeroOps 1 2 1 2 sWF0 sWF1 sWF2 sWH0 sWH1 sWH2
    SunEvent.SUNRISE SunEvent.SUNRISE SunEvent.SUNRISE SunEvent.SUNRISE
    40665 126828 902299 816136 (by decide) (by decide) (by decide) (by decide)

/-- **C9**: every descriptor yielded by a `next()` call on the forecast or
history iterator is a member of the whitelist supplied at construction;
moreover the cycle's item list (built from that whitelist) is preserved by
the call, so the same holds for all later calls. -/
theorem whitelist_containment (F : FloatOps) (wl : List SunEvent) (n m : ℕ)
    (s s' r r' : SunEvents) (e f : SunEvent) (t u : ℤ)
    (hsw : s.event_whitelist_iter.items = cycledItems wl)
    (hrw : r.event_whitelist_iter.items = cycledItems wl)
    (hyf : forecastNext F n s = some ((e, t), s'))
    (hyh : historyNext F m r = some ((f, u), r')) :
    e ∈ wl ∧ f ∈ wl ∧ s'.event_whitelist_iter.items = cycledItems wl ∧
      r'.event_whitelist_iter.items = cycledItems wl := by
  obtain ⟨-, -, -, hi, hm⟩ := forecastNext_spec F n s s' e t hyf
  obtain ⟨-, -, -, hi', hm'⟩ := historyNext_spec F m r r' f u hyh
  exact ⟨mem_of_next_mem_cycledItems (hsw ▸ hm),
    mem_of_next_mem_cycledItems (hrw ▸ hm'), hi.trans hsw, hi'.trans hrw⟩

/-- Witness for **C9** on the whitelist `[SUNRISE]`. -/
theorem whitelist_containment_witness :
    SunEvent.SUNRISE ∈ [SunEvent.SUNRISE] ∧ SunEvent.SUNRISE ∈ [SunEvent.SUNRISE] ∧
      sWF1.event_whitelist_iter.items = cycledItems [SunEvent.SUNRISE] ∧
      sWH1.event_whitelist_iter.items = cycledItems [SunEvent.SUNRISE] :=
  whitelist_containment zeroOps [SunEvent.SUNRISE] 1 1 sWF0 sWF1 sWH0 sWH1
    SunEvent.SUNRISE SunEvent.SUNRISE 40665 902299
    (by decide) (by decide) (by decide) (by decide)

/-- **C10**: a `next()` call on the forecast or history iterator leaves
the generator's position field unchanged (and also its whitelist cycle
item list; only the time cursor and the cycle index move). -/
theorem position_unchanged (F : FloatOps) (n m : ℕ) (s s' r r' : SunEvents)
    (e f : SunEvent) (t u : ℤ)
    (hyf : forecastNext F n s = some ((e, t), s'))
    (hyh : historyNext F m r = some ((f, u), r')) :
    s'.pos = s.pos ∧ r'.pos = r.pos ∧
      s'.event_whitelist_iter.items = s.event_whitelist_iter.items ∧
      r'.event_whitelist_iter.items = r.event_whitelist_iter.items := by
  obtain ⟨-, -, hp, hi, -⟩ := forecastNext_spec F n s s' e t hyf
  obtain ⟨-, -, hp', hi', -⟩ := historyNext_spec F m r r' f u hyh
  exact ⟨hp, hp', hi, hi'⟩

/-- Witness for **C10** on concrete forecast and history yields. -/
theorem position_unchanged_witness :
    sWF1.pos = sWF0.pos ∧ sWH1.pos = sWH0.pos ∧
      sWF1.event_whitelist_iter.items = sWF0.event_whitelist_iter.items ∧
      sWH1.event_whitelist_iter.items = sWH0.event_whitelist_iter.items :=
  position_unchanged zeroOps 1 1 sWF0 sWF1 sWH0 sWH1
    SunEvent.SUNRISE SunEvent.SUNRISE 40665 902299 (by decide) (by decide)

/-- **C6**: when `time_of_event` returns a timestamp, its date is the
previous calendar day exactly when `lng_hour > 0`, `UT > 12` and the event
is a sunrise; the next calendar day exactly when `lng_hour < 0`, `UT < 12`
and the event is a sunset; and otherwise the requested date unchanged. -/
theorem day_correction_iff (F : FloatOps) (date : ℤ) (pos : GlobalPosition)
    (event : SunEvent) (ts : ℤ) (h : time_of_event F date pos event = some ts) :
    (dateOf ts = date - 1 ↔
      0 < pos.lng_hour ∧ 12 < universal_time F date pos event ∧ event.is_sunrise = true) ∧
    (dateOf ts = date + 1 ↔
      pos.lng_hour < 0 ∧ universal_time F date pos event < 12 ∧ event.is_sunset = true) ∧
    (¬(0 < pos.lng_hour ∧ 12 < universal_time F date pos event ∧ event.is_sunrise = true) →
      ¬(pos.lng_hour < 0 ∧ universal_time F date pos event < 12 ∧ event.is_sunset = true) →
      dateOf ts = date) := by
  have hd := time_of_event_dateOf h
  split_ifs at hd with h1 h2
  · exact ⟨⟨fun _ => h1, fun _ => hd⟩,
      ⟨fun hh => absurd (hd.symm.trans hh) (by omega),
        fun hc => absurd hc.1 (lt_asymm h1.1)⟩,
      fun hn1 _ => absurd h1 hn1⟩
  · exact ⟨⟨fun hh => absurd (hd.symm.trans hh) (by omega), fun hc1 => absurd hc1 h1⟩,
      ⟨fun _ => h2, fun _ => hd⟩,
      fun _ hn2 => absurd h2 hn2⟩
  · exact ⟨⟨fun hh => absurd (hd.symm.trans hh) (by omega), fun hc1 => absurd hc1 h1⟩,
      ⟨fun hh => absurd (hd.symm.trans hh) (by omega), fun hc2 => absurd hc2 h2⟩,
      fun _ _ => hd⟩

/-- Witness for **C6**: at the prime meridian (`lng_hour = 0`) neither
correction fires and the sunrise timestamp for day 0 stays on day 0. -/
theorem day_correction_iff_witness :
    time_of_event zeroOps 0 posZero SunEvent.SUNRISE = some 40665 ∧ dateOf 40665 = 0 :=
  ⟨by decide,
    (day_correction_iff zeroOps 0 posZero SunEvent.SUNRISE 40665 (by decide)).2.2
      (by decide) (by decide)⟩

/-- **C7 (amended)**: the seconds-since-midnight component of the
timestamp returned by `time_of_event` is `UT * 3600` truncated toward
zero (`⌊UT * 3600⌋`, since `UT ≥ 0`), not rounded to the nearest whole
second. -/
theorem seconds_are_truncated (F : FloatOps) (date : ℤ) (pos : GlobalPosition)
    (event : SunEvent) (ts : ℤ) (h : time_of_event F date pos event = some ts) :
    ts % 86400 = ⌊universal_time F date pos event * 3600⌋ := by
  have hspec := time_of_event_some_spec h
  have h1 := secs_lt F date pos event
  rw [ratFloor_eq_intFloor] at hspec h1
  have hx0 : 0 ≤ ⌊universal_time F date pos event * 3600⌋ := by
    have := universal_time_nonneg F date pos event
    exact Int.floor_nonneg.2 (by nlinarith)
  set x := ⌊universal_time F date pos event * 3600⌋ with hx
  set d2 := (if 0 < pos.lng_hour ∧ 12 < universal_time F date pos event ∧
      event.is_sunrise = true then date - 1
    else if pos.lng_hour < 0 ∧ universal_time F date pos event < 12 ∧
      event.is_sunset = true then date + 1
    else date) with hd2
  omega

/-- Witness for **C7 (amended)** at the prime meridian on day 0. -/
theorem seconds_are_truncated_witness :
    time_of_event zeroOps 0 posZero SunEvent.SUNRISE = some 40665 ∧
      (40665 : ℤ) % 86400 = ⌊universal_time zeroOps 0 posZero SunEvent.SUNRISE * 3600⌋ :=
  ⟨by decide, seconds_are_truncated zeroOps 0 posZero SunEvent.SUNRISE 40665 (by decide)⟩

/-- Counterexample to **C7 as stated**: at longitude 7°E on day 0,
`UT * 3600` has fractional part above one half, so rounding to the
nearest second would give 38990 while the code stores 38989 seconds. -/
theorem seconds_rounding_counterexample :
    time_of_event zeroOps 0 posFrac SunEvent.SUNRISE = some 38989 ∧
      (38989 : ℤ) % 86400 ≠ round (universal_time zeroOps 0 posFrac SunEvent.SUNRISE * 3600) := by
  constructor
  · decide
  · rw [round_eq, ← ratFloor_eq_intFloor]
    decide

theorem cycledItems_singleton (e : SunEvent) :
    cycledItems [e] = [CycleState.next e, CycleState.restarting] := rfl

theorem forecastNext_succ_eq (F : FloatOps) (n : ℕ) (s : SunEvents) :
    forecastNext F (n + 1) s =
      match s.event_whitelist_iter.step with
      | none => none
      | some (CycleState.next event, c) =>
        match time_of_event F (dateOf s.current_time) s.pos event with
        | some event_time =>
          if s.current_time < event_time then
            some ((event, event_time),
              { pos := s.pos, current_time := event_time, event_whitelist_iter := c })
          else forecastNext F n
            { pos := s.pos, current_time := s.current_time, event_whitelist_iter := c }
        | none => forecastNext F n
            { pos := s.pos, current_time := s.current_time, event_whitelist_iter := c }
      | some (CycleState.restarting, c) =>
        forecastNext F n
          { pos := s.pos, current_time := (dateOf s.current_time + 1) * 86400,
            event_whitelist_iter := c } := by
  rw [forecastNext]

/-- An iterator state whose cycle is positioned on the day-boundary
marker. -/
def uRestart : SunEvents := ⟨posZero, 0, ⟨[CycleState.restarting], 0⟩⟩

/-- **C4 (amended)**: for a forward sequence whose whitelist is a single
descriptor that occurs on every day in scope — `time_of_event` returns
`Some` on each queried day, strictly later than the cursor, **and the
returned timestamp falls on the queried date** (the day-correction of the
algorithm does not fire) — the dates of consecutive yielded timestamps
differ by exactly one calendar day; and the day-boundary marker advances
the cursor date by exactly one day and resets its time-of-day to
`00:00:00` without yielding.  (The italicised date-stability hypothesis is
the amendment; without it the claim fails, see the counterexample.) -/
theorem no_skip_one_day_amended (F : FloatOps) (pos : GlobalPosition) (e : SunEvent)
    (start : ℤ) (s0 : SunEvents) (t₁ t₂ : ℤ) (u : SunEvents) (nu : ℕ)
    (hc : starting_from start pos [e] = some s0)
    (h1 : time_of_event F (dateOf start) pos e = some t₁)
    (h1' : start < t₁)
    (hd1 : dateOf t₁ = dateOf start)
    (h2 : time_of_event F (dateOf t₁ + 1) pos e = some t₂)
    (h2' : (dateOf t₁ + 1) * 86400 < t₂)
    (hd2 : dateOf t₂ = dateOf t₁ + 1)
    (hu : u.event_whitelist_iter.items.get?
        (u.event_whitelist_iter.idx % u.event_whitelist_iter.items.length)
        = some CycleState.restarting) :
    (∃ s₁, forecastNext F 1 s0 = some ((e, t₁), s₁) ∧
      ∃ s₂, forecastNext F 2 s₁ = some ((e, t₂), s₂)) ∧
    dateOf t₂ = dateOf t₁ + 1 ∧
    forecastNext F (nu + 1) u = forecastNext F nu
      ⟨u.pos, (dateOf u.current_time + 1) * 86400,
        ⟨u.event_whitelist_iter.items, u.event_whitelist_iter.idx + 1⟩⟩ := by
  have hs0 : s0 = ⟨pos, start, ⟨[CycleState.next e, CycleState.restarting], 0⟩⟩ := by
    unfold starting_from cycled at hc
    rw [cycledItems_singleton] at hc
    simpa using hc.symm
  subst hs0
  refine ⟨⟨⟨pos, t₁, ⟨[CycleState.next e, CycleState.restarting], 1⟩⟩, ?_,
    ⟨pos, t₂, ⟨[CycleState.next e, CycleState.restarting], 3⟩⟩, ?_⟩, hd2, ?_⟩
  · have hstep1 : (⟨pos, start,
        ⟨[CycleState.next e, CycleState.restarting], 0⟩⟩ : SunEvents).event_whitelist_iter.step
        = some (CycleState.next e, ⟨[CycleState.next e, CycleState.restarting], 1⟩) := rfl
    rw [forecastNext_succ_eq, hstep1]
    dsimp only
    rw [h1]
    dsimp only
    rw [if_pos h1']
  · have hstep2 : (⟨pos, t₁,
        ⟨[CycleState.next e, CycleState.restarting], 1⟩⟩ : SunEvents).event_whitelist_iter.step
        = some (CycleState.restarting, ⟨[CycleState.next e, CycleState.restarting], 2⟩) := rfl
    rw [show (2 : ℕ) = 1 + 1 from rfl, forecastNext_succ_eq, hstep2]
    dsimp only
    have hstep3 : (⟨pos, (dateOf t₁ + 1) * 86400,
        ⟨[CycleState.next e, CycleState.restarting], 2⟩⟩ : SunEvents).event_whitelist_iter.step
        = some (CycleState.next e, ⟨[CycleState.next e, CycleState.restarting], 3⟩) := by
      simp [EventCycle.step]
    rw [forecastNext_succ_eq, hstep3]
    dsimp only
    rw [dateOf_mul, h2]
    dsimp only
    rw [if_pos h2']
  · have hstepu : u.event_whitelist_iter.step
        = some (CycleState.restarting,
            ⟨u.event_whitelist_iter.items, u.event_whitelist_iter.idx + 1⟩) := by
      unfold EventCycle.step
      rw [hu]
    rw [forecastNext_succ_eq, hstepu]

/-- Counterexample to **C4 as stated**: at longitude 6°W with the
whitelist `[SUNSET]`, `time_of_event` returns `Some` on each queried day,
strictly later than the cursor, yet the first two yielded timestamps fall
on epoch days 1 and 3 — two days apart, because the sunset day-correction
(`lng_hour < 0`, `UT < 12`) pushes each result to the next day and the
iterator then advances past the skipped day. -/
theorem no_skip_counterexample :
    starting_from 0 posSkip [SunEvent.SUNSET]
        = some ⟨posSkip, 0, ⟨cycledItems [SunEvent.SUNSET], 0⟩⟩ ∧
    time_of_event zeroOps (dateOf 0) posSkip SunEvent.SUNSET = some 128382 ∧
    (0 : ℤ) < 128382 ∧
    time_of_event zeroOps (dateOf 128382 + 1) posSkip SunEvent.SUNSET = some 300709 ∧
    ((dateOf 128382 + 1) * 86400 : ℤ) < 300709 ∧
    forecastNext zeroOps 1 ⟨posSkip, 0, ⟨cycledItems [SunEvent.SUNSET], 0⟩⟩
      = some ((SunEvent.SUNSET, 128382),
          ⟨posSkip, 128382, ⟨cycledItems [SunEvent.SUNSET], 1⟩⟩) ∧
    forecastNext zeroOps 2 ⟨posSkip, 128382, ⟨cycledItems [SunEvent.SUNSET], 1⟩⟩
      = some ((SunEvent.SUNSET, 300709),
          ⟨posSkip, 300709, ⟨cycledItems [SunEvent.SUNSET], 3⟩⟩) ∧
    dateOf 300709 ≠ dateOf 128382 + 1 := by
  refine ⟨by decide, by decide, by decide, by decide, by decide, by decide, by decide, by decide⟩

/-- Witness for **C4 (amended)**: sunrise at the prime meridian is
day-stable; the first two yields fall on consecutive epoch days 0 and 1. -/
theorem no_skip_one_day_amended_witness :
    time_of_event zeroOps (dateOf 0) posZero SunEvent.SUNRISE = some 40665 ∧
    ((∃ s₁, forecastNext zeroOps 1 sWF0 = some ((SunEvent.SUNRISE, 40665), s₁) ∧
        ∃ s₂, forecastNext zeroOps 2 s₁ = some ((SunEvent.SUNRISE, 126828), s₂)) ∧
      dateOf 126828 = dateOf 40665 + 1 ∧
      forecastNext zeroOps (0 + 1) uRestart = forecastNext zeroOps 0
        ⟨uRestart.pos, (dateOf uRestart.current_time + 1) * 86400,
          ⟨uRestart.event_whitelist_iter.items, uRestart.event_whitelist_iter.idx + 1⟩⟩) :=
  ⟨by decide,
    no_skip_one_day_amended zeroOps posZero SunEvent.SUNRISE 0 sWF0 40665 126828 uRestart 0
      (by decide) (by decide) (by decide) (by decide) (by decide) (by decide) (by decide)
      (by decide)⟩

end Circadia
